import Mathlib

/-!
Verification of the glassmorphism music player against its specification.

The development shallowly embeds the player's JavaScript source:
  * `src/unnamed/part_000` — audio utility module (file validation, time
    formatting, localStorage helpers, analyser wiring, frequency averaging);
  * `src/unnamed/part_002` — `MusicPlayer` component (next/previous track,
    `formatTime`) and `FileUpload` component (`handleFileSelect`);
  * `src/pages/index.js` — `Home` page (playlist persistence effects,
    `handleFileUpload`, `togglePlayPause`, visualization loop, `formatTime`);
  * `src/components/AudioVisualizer.js` — analyser setup and draw loop.

JavaScript runtime values are modelled by the inductive `JsVal`; browser
`JSON.stringify` / `JSON.parse` are modelled character-for-character by
`render` / `parseJson`; `localStorage` is a partial map from keys to strings.
-/

set_option linter.unusedVariables false

/-- JavaScript values relevant to the player: JSON data together with
browser `File` handles.  A `File` has no enumerable own properties, so
`JSON.stringify` serializes it as the empty object; the `jfile`
constructor keeps the fields the player reads (`name`, `type`, `size`).
Numbers are modelled as integers. -/
inductive JsVal where
  | jnull
  | jbool (b : Bool)
  | jnum (n : Int)
  | jstr (s : String)
  | jarr (elems : List JsVal)
  | jobj (fields : List (String × JsVal))
  | jfile (fname ftype : String) (fsize : Nat)

/-- The decimal digit character for `n < 10`. -/
def digitChar (n : Nat) : Char := Char.ofNat (48 + n)

/-- Lowercase hexadecimal digit character for `n < 16`, as emitted by
`JSON.stringify` in `\uXXXX` escapes. -/
def hexChar (n : Nat) : Char :=
  if n < 10 then Char.ofNat (48 + n) else Char.ofNat (87 + n)

/-- How `JSON.stringify` quotes a single character inside a string literal
(ECMA-262 QuoteJSONString): `"` and `\` are backslash-escaped, the named
control characters get their short escapes, all other control characters
get a `\u00XX` escape, and every other character is emitted verbatim. -/
def escapeChar (c : Char) : List Char :=
  if c = '"' then ['\\', '"']
  else if c = '\\' then ['\\', '\\']
  else if c.toNat = 8 then ['\\', 'b']
  else if c.toNat = 9 then ['\\', 't']
  else if c.toNat = 10 then ['\\', 'n']
  else if c.toNat = 12 then ['\\', 'f']
  else if c.toNat = 13 then ['\\', 'r']
  else if c.toNat < 32 then
    ['\\', 'u', '0', '0', hexChar (c.toNat / 16), hexChar (c.toNat % 16)]
  else [c]

/-- `JSON.stringify` rendering of a string literal, quotes included. -/
def renderString (s : String) : List Char :=
  '"' :: (s.data.map escapeChar).flatten ++ ['"']

/-- Decimal digits of a natural number (most significant first), with
explicit fuel so the definition is structural.  `natToChars` supplies
enough fuel. -/
def natToCharsAux : Nat → Nat → List Char
  | 0, _ => []
  | fuel + 1, n =>
    if n < 10 then [digitChar n]
    else natToCharsAux fuel (n / 10) ++ [digitChar (n % 10)]

/-- Decimal representation of a natural number, as `Number#toString`. -/
def natToChars (n : Nat) : List Char := natToCharsAux (n + 1) n

/-- Decimal representation of an integer, as `JSON.stringify` /
`Number#toString` produce. -/
def intToChars (n : Int) : List Char :=
  if n < 0 then '-' :: natToChars n.natAbs else natToChars n.toNat

mutual
/-- Character-level model of `JSON.stringify` on a `JsVal`.  `jfile`
values render as `{}` because a `File` has no enumerable own
properties. -/
def render : JsVal → List Char
  | .jnull => ['n', 'u', 'l', 'l']
  | .jbool true => ['t', 'r', 'u', 'e']
  | .jbool false => ['f', 'a', 'l', 's', 'e']
  | .jnum n => intToChars n
  | .jstr s => renderString s
  | .jarr [] => ['[', ']']
  | .jarr (v :: vs) => '[' :: render v ++ renderItems vs
  | .jobj [] => ['{', '}']
  | .jobj (f :: fs) => '{' :: renderField f ++ renderFields fs
  | .jfile _ _ _ => ['{', '}']

/-- Remaining array elements, each preceded by `,`, ending with `]`. -/
def renderItems : List JsVal → List Char
  | [] => [']']
  | v :: vs => ',' :: render v ++ renderItems vs

/-- One object member: quoted key, colon, value. -/
def renderField : String × JsVal → List Char
  | (k, v) => renderString k ++ ':' :: render v

/-- Remaining object members, each preceded by `,`, ending with `}`. -/
def renderFields : List (String × JsVal) → List Char
  | [] => ['}']
  | f :: fs => ',' :: renderField f ++ renderFields fs
end

mutual
/-- Replaces every `File` handle inside a value by the empty object —
exactly the information loss a `JSON.stringify`/`JSON.parse` round trip
inflicts on `File`-bearing values. -/
def scrub : JsVal → JsVal
  | .jnull => .jnull
  | .jbool b => .jbool b
  | .jnum n => .jnum n
  | .jstr s => .jstr s
  | .jarr vs => .jarr (scrubList vs)
  | .jobj fs => .jobj (scrubFields fs)
  | .jfile _ _ _ => .jobj []

/-- `scrub` mapped over array elements. -/
def scrubList : List JsVal → List JsVal
  | [] => []
  | v :: vs => scrub v :: scrubList vs

/-- `scrub` mapped over object member values. -/
def scrubFields : List (String × JsVal) → List (String × JsVal)
  | [] => []
  | (k, v) :: fs => (k, scrub v) :: scrubFields fs
end

mutual
/-- Fuel bound for the parser: an upper bound on the recursion depth
`parseVal` needs to re-read `render v`. -/
def jsize : JsVal → Nat
  | .jnull => 1
  | .jbool _ => 1
  | .jnum _ => 1
  | .jstr _ => 1
  | .jarr [] => 1
  | .jarr (v :: vs) => 1 + jsize v + jsizeItems vs
  | .jobj [] => 1
  | .jobj (f :: fs) => 1 + jsizeField f + jsizeFields fs
  | .jfile _ _ _ => 1

/-- Fuel bound for `parseItems`. -/
def jsizeItems : List JsVal → Nat
  | [] => 1
  | v :: vs => 1 + jsize v + jsizeItems vs

/-- Fuel bound for one object member. -/
def jsizeField : String × JsVal → Nat
  | (_, v) => 1 + jsize v

/-- Fuel bound for `parseFields`. -/
def jsizeFields : List (String × JsVal) → Nat
  | [] => 1
  | f :: fs => 1 + jsizeField f + jsizeFields fs
end

/-- Accumulating decimal-digit scanner used by the number production of
the JSON parser: consumes a maximal digit prefix. -/
def takeDigits : List Char → Nat → Nat × List Char
  | [], acc => (acc, [])
  | c :: cs, acc =>
    if c.isDigit then takeDigits cs (acc * 10 + (c.toNat - 48))
    else (acc, c :: cs)

/-- Is `c` a hexadecimal digit (as accepted after `\u` by `JSON.parse`)? -/
def isHexChar (c : Char) : Bool :=
  (('0' ≤ c && c ≤ '9') || ('a' ≤ c && c ≤ 'f') || ('A' ≤ c && c ≤ 'F'))

/-- Numeric value of a hexadecimal digit character. -/
def hexVal (c : Char) : Nat :=
  if '0' ≤ c && c ≤ '9' then c.toNat - 48
  else if 'a' ≤ c && c ≤ 'f' then c.toNat - 87
  else c.toNat - 55

/-- Expects the literal characters `pat` at the head of the input and
returns the remainder. -/
def expectChars : List Char → List Char → Option (List Char)
  | [], cs => some cs
  | _ :: _, [] => none
  | p :: ps, c :: cs => if c = p then expectChars ps cs else none

/-- Body of a JSON string literal after the opening quote: returns the
decoded characters and the input following the closing quote.  Raw
control characters are a syntax error, escapes follow the JSON
grammar. -/
def parseStrAux : List Char → Option (List Char × List Char)
  | [] => none
  | c :: cs =>
    if c = '"' then some ([], cs)
    else if c = '\\' then
      match cs with
      | [] => none
      | e :: cs' =>
        if e = '"' then (parseStrAux cs').map (fun p => ('"' :: p.1, p.2))
        else if e = '\\' then (parseStrAux cs').map (fun p => ('\\' :: p.1, p.2))
        else if e = '/' then (parseStrAux cs').map (fun p => ('/' :: p.1, p.2))
        else if e = 'b' then (parseStrAux cs').map (fun p => (Char.ofNat 8 :: p.1, p.2))
        else if e = 'f' then (parseStrAux cs').map (fun p => (Char.ofNat 12 :: p.1, p.2))
        else if e = 'n' then (parseStrAux cs').map (fun p => (Char.ofNat 10 :: p.1, p.2))
        else if e = 'r' then (parseStrAux cs').map (fun p => (Char.ofNat 13 :: p.1, p.2))
        else if e = 't' then (parseStrAux cs').map (fun p => (Char.ofNat 9 :: p.1, p.2))
        else if e = 'u' then
          match cs' with
          | h1 :: h2 :: h3 :: h4 :: r =>
            if isHexChar h1 && isHexChar h2 && isHexChar h3 && isHexChar h4 then
              (parseStrAux r).map (fun p =>
                (Char.ofNat (hexVal h1 * 4096 + hexVal h2 * 256 + hexVal h3 * 16 + hexVal h4)
                  :: p.1, p.2))
            else none
          | _ => none
        else none
    else if c.toNat < 32 then none
    else (parseStrAux cs).map (fun p => (c :: p.1, p.2))

/-- Number production after a leading minus sign: a digit must follow. -/
def parseNeg : List Char → Option (JsVal × List Char)
  | [] => none
  | d :: cs =>
    if d.isDigit then
      some (.jnum (-(((takeDigits cs (d.toNat - 48)).1 : Int))),
        (takeDigits cs (d.toNat - 48)).2)
    else none

mutual
/-- Recursive-descent model of `JSON.parse` (value production).  The
`fuel` argument only bounds the nesting recursion; `jsize` is always
enough fuel to re-read a `render` output. -/
def parseVal : Nat → List Char → Option (JsVal × List Char)
  | 0, _ => none
  | _ + 1, [] => none
  | fuel + 1, c :: cs =>
    if c = 'n' then (expectChars ['u', 'l', 'l'] cs).map (fun rest => (.jnull, rest))
    else if c = 't' then (expectChars ['r', 'u', 'e'] cs).map (fun rest => (.jbool true, rest))
    else if c = 'f' then (expectChars ['a', 'l', 's', 'e'] cs).map (fun rest => (.jbool false, rest))
    else if c = '"' then (parseStrAux cs).map (fun p => (.jstr (String.mk p.1), p.2))
    else if c = '[' then
      if cs.head? = some ']' then some (.jarr [], cs.tail)
      else
        (parseVal fuel cs).bind (fun p =>
          (parseItems fuel p.2).map (fun q => (.jarr (p.1 :: q.1), q.2)))
    else if c = '{' then
      if cs.head? = some '}' then some (.jobj [], cs.tail)
      else
        (parseField fuel cs).bind (fun p =>
          (parseFields fuel p.2).map (fun q => (.jobj (p.1 :: q.1), q.2)))
    else if c = '-' then parseNeg cs
    else if c.isDigit then
      some (.jnum (((takeDigits cs (c.toNat - 48)).1 : Int)),
        (takeDigits cs (c.toNat - 48)).2)
    else none

/-- Array elements after the first: `]` closes the array, `,` demands
another element. -/
def parseItems : Nat → List Char → Option (List JsVal × List Char)
  | 0, _ => none
  | _ + 1, [] => none
  | fuel + 1, c :: cs =>
    if c = ']' then some ([], cs)
    else if c = ',' then
      (parseVal fuel cs).bind (fun p =>
        (parseItems fuel p.2).map (fun q => (p.1 :: q.1, q.2)))
    else none

/-- One object member: quoted key, `:`, value. -/
def parseField : Nat → List Char → Option ((String × JsVal) × List Char)
  | 0, _ => none
  | _ + 1, [] => none
  | fuel + 1, c :: cs =>
    if c = '"' then
      (parseStrAux cs).bind (fun kp =>
        if kp.2.head? = some ':' then
          (parseVal fuel kp.2.tail).map (fun vp => ((String.mk kp.1, vp.1), vp.2))
        else none)
    else none

/-- Object members after the first: `}` closes the object, `,` demands
another member. -/
def parseFields : Nat → List Char → Option (List (String × JsVal) × List Char)
  | 0, _ => none
  | _ + 1, [] => none
  | fuel + 1, c :: cs =>
    if c = '}' then some ([], cs)
    else if c = ',' then
      (parseField fuel cs).bind (fun p =>
        (parseFields fuel p.2).map (fun q => (p.1 :: q.1, q.2)))
    else none
end

/-- Model of `JSON.parse`: parse one value and require the whole input to
be consumed; `none` models the `SyntaxError` throw.  The fuel
`s.length + 1` dominates the nesting depth of any parseable input. -/
def parseJson (s : String) : Option JsVal :=
  match parseVal (s.length + 1) s.data with
  | some (v, []) => some v
  | _ => none

/-- Input begins with a character that cannot extend a JSON number. -/
def delimOk : List Char → Bool
  | [] => true
  | c :: _ => !c.isDigit

mutual
/-- Does the value contain no `File` handle?  `JSON.stringify` followed by
`JSON.parse` is lossless exactly on such values. -/
def noFile : JsVal → Bool
  | .jnull => true
  | .jbool _ => true
  | .jnum _ => true
  | .jstr _ => true
  | .jarr vs => noFileList vs
  | .jobj fs => noFileFields fs
  | .jfile _ _ _ => false

/-- `noFile` over array elements. -/
def noFileList : List JsVal → Bool
  | [] => true
  | v :: vs => noFile v && noFileList vs

/-- `noFile` over object member values. -/
def noFileFields : List (String × JsVal) → Bool
  | [] => true
  | (_, v) :: fs => noFile v && noFileFields fs
end

/-- `localStorage`: a partial map from string keys to stored strings. -/
def Store : Type := String → Option String

/-- A fresh `localStorage` with nothing stored. -/
def emptyStore : Store := fun _ => none

/-- `localStorage.setItem`. -/
def setItem (key val : String) (st : Store) : Store :=
  fun k => if k = key then some val else st k

/-- `localStorage.getItem` (returns JS `null` as `none`). -/
def getItem (key : String) (st : Store) : Option String := st key

/-- `JSON.stringify` as a `String`-valued function. -/
def stringify (v : JsVal) : String := String.mk (render v)

/-- `src/pages/index.js` lines 31-34: the save effect writes the playlist
under the single key `musicPlayerPlaylist` as JSON. -/
def savePlaylistEffect (playlist : List JsVal) (st : Store) : Store :=
  setItem "musicPlayerPlaylist" (stringify (.jarr playlist)) st

/-- `src/pages/index.js` lines 23-29: the load effect reads the key and,
when the stored string is truthy, calls `JSON.parse` on it with NO
`try`/`catch`: a parse failure escapes the effect as an exception,
modelled by `Except.error`.  When nothing is stored the playlist keeps
its initial value `[]`. -/
def homeLoadPlaylist (st : Store) : Except String JsVal :=
  match getItem "musicPlayerPlaylist" st with
  | none => .ok (.jarr [])
  | some s =>
    if s = "" then .ok (.jarr [])
    else
      match parseJson s with
      | some v => .ok v
      | none => .error "SyntaxError: JSON.parse"

/-- JS object spread `{...audioData, timestamp: now}`: an existing
`timestamp` key keeps its position but is overwritten, otherwise the key
is appended. -/
def spreadTimestamp (fields : List (String × JsVal)) (now : Int) :
    List (String × JsVal) :=
  if fields.any (fun f => f.1 = "timestamp") then
    fields.map (fun f => if f.1 = "timestamp" then (f.1, .jnum now) else f)
  else fields ++ [("timestamp", .jnum now)]

/-- `saveToLocalStorage` (`src/unnamed/part_000` lines 100-111): spreads
the data, adds `timestamp: Date.now()`, stringifies, stores. -/
def saveToLocalStorage (key : String) (audioData : List (String × JsVal))
    (now : Int) (st : Store) : Store :=
  setItem key (stringify (.jobj (spreadTimestamp audioData now))) st

/-- The body of `loadFromLocalStorage` before its `try`/`catch`:
`JSON.parse` may throw (`Except.error`); `null`/empty stored values are
falsy and yield `null`. -/
def loadFromLocalStorageBody (key : String) (st : Store) :
    Except String (Option JsVal) :=
  match getItem key st with
  | none => .ok none
  | some s =>
    if s = "" then .ok none
    else
      match parseJson s with
      | some v => .ok (some v)
      | none => .error "SyntaxError: JSON.parse"

/-- `loadFromLocalStorage` (`src/unnamed/part_000` lines 118-126): the
`catch` turns any thrown error into a `console.error` and `null`. -/
def loadFromLocalStorage (key : String) (st : Store) :
    Except String (Option JsVal) :=
  match loadFromLocalStorageBody key st with
  | .ok v => .ok v
  | .error _ => .ok none

/-- `saveToLocalStorage` with the host `setItem` allowed to throw (for
example a quota error): the `catch` swallows the failure and leaves the
store unchanged. -/
def saveToLocalStorageChecked (hostFail : Bool) (key : String)
    (audioData : List (String × JsVal)) (now : Int) (st : Store) :
    Except String Store :=
  match (if hostFail then Except.error "QuotaExceededError"
         else Except.ok (saveToLocalStorage key audioData now st) :
         Except String Store) with
  | .ok st' => .ok st'
  | .error _ => .ok st

/-- `createAudioContext` (`src/unnamed/part_000` lines 144-152): the host
constructor may throw; the `catch` logs and returns `null`. -/
def createAudioContext {α : Type} (host : Except String α) :
    Except String (Option α) :=
  match host with
  | .ok ctx => .ok (some ctx)
  | .error _ => .ok none

/-- Did the operation return normally (no exception escaped)? -/
def exceptOk {ε α : Type} : Except ε α → Bool
  | .ok _ => true
  | .error _ => false

/-- The fields of a browser `File` that the player reads. -/
structure FileHandle where
  name : String
  type : String
  size : Nat

/-- `String.prototype.toLowerCase` (ASCII range, which covers the
comparisons the player makes). -/
def jsToLower (s : String) : String := String.mk (s.data.map Char.toLower)

/-- `String.prototype.endsWith`. -/
def jsEndsWith (s suffix : String) : Bool := suffix.data.isSuffixOf s.data

/-- `validTypes` from `validateAudioFile`. -/
def validTypes : List String := ["audio/mp3", "audio/mpeg"]

/-- `validExtensions` from `validateAudioFile`. -/
def validExtensions : List String := [".mp3"]

/-- `validateAudioFile` (`src/unnamed/part_000` lines 8-20): MIME type in
`validTypes`, or lower-cased name ending in `.mp3`.  No size check. -/
def validateAudioFile (file : Option FileHandle) : Bool :=
  match file with
  | none => false
  | some f =>
    let hasValidType := validTypes.contains f.type
    let hasValidExtension := validExtensions.any (fun ext => jsEndsWith (jsToLower f.name) ext)
    hasValidType || hasValidExtension

/-- Outcome of the `FileUpload` component's `handleFileSelect`. -/
inductive SelectResult where
  | accepted (f : FileHandle)
  | rejected (errorMsg : String)
  | ignored

/-- `handleFileSelect` (`src/unnamed/part_002` lines 251-269): requires
MIME `audio/mpeg` or a `.mp3` name, then enforces the 50MB cap. -/
def handleFileSelect (file : Option FileHandle) : SelectResult :=
  match file with
  | none => .ignored
  | some f =>
    if (f.type != "audio/mpeg") && !(jsEndsWith (jsToLower f.name) ".mp3") then
      .rejected "Please select an MP3 file only"
    else if f.size > 50 * 1024 * 1024 then
      .rejected "File size must be less than 50MB"
    else .accepted f

/-- `handleFileUpload`'s filter (`src/pages/index.js` line 61): keeps
exactly the files whose MIME type is `audio/mpeg`. -/
def handleFileUpload (files : List FileHandle) : List FileHandle :=
  files.filter (fun f => f.type == "audio/mpeg")

/-- The acceptance predicate as the specification words it: MIME
`audio/mp3` or `audio/mpeg`, or a case-insensitive `.mp3` name, and size
at most 50MB.  Stated from the spec, for comparison with the three
source-code filters. -/
def specAccepts (f : FileHandle) : Bool :=
  (f.type == "audio/mp3" || f.type == "audio/mpeg" ||
    jsEndsWith (jsToLower f.name) ".mp3") &&
  f.size ≤ 50 * 1024 * 1024

/-- `String.prototype.replace` with a string pattern: replaces only the
first occurrence (leftmost), case-sensitively; returns the input when the
pattern does not occur. -/
def replaceFirst : List Char → List Char → List Char → List Char
  | [], pat, repl => if pat.isPrefixOf [] then repl else []
  | c :: rest, pat, repl =>
    if pat.isPrefixOf (c :: rest) then repl ++ (c :: rest).drop pat.length
    else c :: replaceFirst rest pat repl

/-- The track object literal built in `handleFileUpload`
(`src/pages/index.js` lines 66-71): fields `id`, `name`, `url`, `file` in
insertion order; `id` is `Date.now() + Math.random()`; `name` is
`file.name.replace('.mp3', '')`; `url` the data URL from the
`FileReader`; `file` the `File` handle itself. -/
def newTrack (now rand : Int) (f : FileHandle) (dataUrl : String) : JsVal :=
  .jobj [("id", .jnum (now + rand)),
         ("name", .jstr (String.mk (replaceFirst f.name.data ".mp3".data []))),
         ("url", .jstr dataUrl),
         ("file", .jfile f.name f.type f.size)]

/-- Keys of a JS object value, in insertion order. -/
def jsonKeys : JsVal → List String
  | .jobj fields => fields.map Prod.fst
  | _ => []

/-- Property access `obj[key]` on a JS object value. -/
def getField (v : JsVal) (key : String) : Option JsVal :=
  match v with
  | .jobj fields => (fields.find? (fun f => f.1 = key)).map Prod.snd
  | _ => none

/-- A JS number argument as `formatTime` receives it: `NaN`, `undefined`
(missing argument), or a finite value modelled as a rational. -/
inductive JsNum where
  | nan
  | undef
  | fin (q : ℚ)

/-- `isNaN(x)`: coerces to number first, so `undefined` is also `NaN`. -/
def jsIsNaN : JsNum → Bool
  | .fin _ => false
  | _ => true

/-- JS falsiness of a number-ish value (`!seconds`): `NaN`, `undefined`
and `0` are falsy. -/
def jsFalsy : JsNum → Bool
  | .fin q => q == 0
  | _ => true

/-- Truncation toward zero, as JS `%` uses internally. -/
def jsTrunc (q : ℚ) : Int := if 0 ≤ q then ⌊q⌋ else -⌊-q⌋

/-- JS remainder `a % b` for finite operands (`b ≠ 0`):
`a - b * trunc(a / b)`. -/
def jsFmod (a b : ℚ) : ℚ := a - b * (jsTrunc (a / b) : ℚ)

/-- Result of `Math.floor`: an integer, or `NaN` for non-finite input. -/
inductive JsIntOrNaN where
  | nan
  | val (n : Int)

/-- `Math.floor` on a number-ish value. -/
def jsFloorN : JsNum → JsIntOrNaN
  | .fin q => .val ⌊q⌋
  | _ => .nan

/-- `x / d` for a number-ish `x` and nonzero literal `d`. -/
def jsDivN : JsNum → ℚ → JsNum
  | .fin q, d => .fin (q / d)
  | _, _ => .nan

/-- `x % d` for a number-ish `x` and nonzero literal `d`. -/
def jsModN : JsNum → ℚ → JsNum
  | .fin q, d => .fin (jsFmod q d)
  | _, _ => .nan

/-- `Number#toString` on an integer value. -/
def intToStr (n : Int) : String := String.mk (intToChars n)

/-- `toString` on a `Math.floor` result (`NaN.toString() = "NaN"`). -/
def jsNumToStr : JsIntOrNaN → String
  | .nan => "NaN"
  | .val n => intToStr n

/-- `String.prototype.padStart(2, '0')`. -/
def padStart2 (s : String) : String :=
  if s.length ≥ 2 then s else if s.length = 1 then "0" ++ s else "00"

/-- `formatTime` from the utilities module (`src/unnamed/part_000` lines
50-57): guard `!seconds || isNaN(seconds)`, then
`floor(s/60)`:`floor(s%60)` padded. -/
def formatTime_utils (seconds : JsNum) : String :=
  if jsFalsy seconds || jsIsNaN seconds then "0:00"
  else
    jsNumToStr (jsFloorN (jsDivN seconds 60)) ++ ":" ++
      padStart2 (jsNumToStr (jsFloorN (jsModN seconds 60)))

/-- `formatTime` from the `MusicPlayer` component (`src/unnamed/part_002`
lines 96-101): guard `isNaN(time)` only. -/
def formatTime_mp (time : JsNum) : String :=
  if jsIsNaN time then "0:00"
  else
    jsNumToStr (jsFloorN (jsDivN time 60)) ++ ":" ++
      padStart2 (jsNumToStr (jsFloorN (jsModN time 60)))

/-- `formatTime` from the `Home` page (`src/pages/index.js` lines
142-146): NO guard at all. -/
def formatTime_home (time : JsNum) : String :=
  jsNumToStr (jsFloorN (jsDivN time 60)) ++ ":" ++
    padStart2 (jsNumToStr (jsFloorN (jsModN time 60)))

/-- The string the specification predicts for a finite non-negative
number of seconds: `floor(s/60)`, a colon, `floor(s) mod 60` zero-padded
to two digits. -/
def expectedFormat (q : ℚ) : String :=
  intToStr ⌊q / 60⌋ ++ ":" ++ padStart2 (intToStr (⌊q⌋ % 60))

/-- Operations performed on an analyser node after its creation. -/
inductive AnaEvent where
  | setFft (n : Nat)
  | setSmoothing (q : ℚ)
  | connectSource
  | connectDest
  | readFreq

/-- The mutable configuration of an `AnalyserNode`. -/
structure AnalyserState where
  fftSize : Nat
  smoothingTimeConstant : ℚ

/-- `audioContext.createAnalyser()`: Web Audio API defaults are
`fftSize = 2048` and `smoothingTimeConstant = 0.8`. -/
def createAnalyser : AnalyserState := ⟨2048, 8/10⟩

/-- Effect of one event on the analyser configuration. -/
def anaStep (st : AnalyserState) : AnaEvent → AnalyserState
  | .setFft n => { st with fftSize := n }
  | .setSmoothing q => { st with smoothingTimeConstant := q }
  | _ => st

/-- Along the event trace, every `getByteFrequencyData` read happens with
`fftSize = 256` and `smoothingTimeConstant = 0.8` in effect. -/
def configuredAtReads : AnalyserState → List AnaEvent → Prop
  | _, [] => True
  | st, e :: es =>
    (match e with
     | .readFreq => st.fftSize = 256 ∧ st.smoothingTimeConstant = 8/10
     | _ => True) ∧ configuredAtReads (anaStep st e) es

/-- `connectAudioAnalyser` (`src/unnamed/part_000` lines 160-178)
followed by `getFrequencyData` reads: sets `fftSize = 256` and
`smoothingTimeConstant = 0.8` explicitly before connecting. -/
def connectAudioAnalyserTrace : List AnaEvent :=
  [.setFft 256, .setSmoothing (8/10), .connectSource, .connectDest,
   .readFreq, .readFreq]

/-- `AudioVisualizer.js` `initializeAudioContext` (lines 15-36) followed
by the draw loop's reads: sets `fftSize = 256` (smoothing left at its
default) before wiring and reading. -/
def audioVisualizerTrace : List AnaEvent :=
  [.setFft 256, .connectSource, .connectDest, .readFreq, .readFreq]

/-- `index.js` `initializeAudioContext` (lines 37-47) followed by
`updateVisualization` reads: wires first, then sets `fftSize = 256`
(smoothing left at its default) — still before any read. -/
def homeInitTrace : List AnaEvent :=
  [.connectSource, .connectDest, .setFft 256, .readFreq, .readFreq]

/-- Events driving the animation machines of `index.js` and
`AudioVisualizer.js`. -/
inductive VizEvent where
  | play
  | pause
  | frame
  | unmount
deriving DecidableEq

/-- State of an animation machine: playback flag, whether an animation
frame is pending, whether the component is mounted, and how many draw
callbacks have run. -/
structure VizState where
  isPlaying : Bool
  pending : Bool
  mounted : Bool
  draws : Nat
deriving DecidableEq

/-- Initial state: not playing, nothing scheduled, mounted. -/
def initViz : VizState := ⟨false, false, true, 0⟩

/-- The `Home` page machine (`src/pages/index.js`): the play branch of
`togglePlayPause` starts `updateVisualization` (scheduling a frame), the
pause branch and `handleEnded` cancel the pending frame, a fired frame
reads data and unconditionally schedules the next one, and unmounting
has NO cleanup — the pending frame is not cancelled. -/
def homeStep (s : VizState) : VizEvent → VizState
  | .play =>
    if s.mounted && !s.isPlaying then
      { s with isPlaying := true, pending := true }
    else s
  | .pause =>
    if s.mounted && s.isPlaying then
      { s with isPlaying := false, pending := false }
    else s
  | .frame =>
    if s.pending then { s with pending := true, draws := s.draws + 1 } else s
  | .unmount => { s with mounted := false }

/-- The `AudioVisualizer` machine (`src/components/AudioVisualizer.js`):
like the `Home` machine, except the effect cleanup also cancels the
pending frame on unmount. -/
def avStep (s : VizState) : VizEvent → VizState
  | .play =>
    if s.mounted && !s.isPlaying then
      { s with isPlaying := true, pending := true }
    else s
  | .pause =>
    if s.mounted && s.isPlaying then
      { s with isPlaying := false, pending := false }
    else s
  | .frame =>
    if s.pending then { s with pending := true, draws := s.draws + 1 } else s
  | .unmount => { s with mounted := false, pending := false }

/-- Run an animation machine over an event sequence. -/
def runViz (step : VizState → VizEvent → VizState) (s : VizState)
    (evs : List VizEvent) : VizState :=
  evs.foldl step s

/-- A track as the `MusicPlayer` component distinguishes them: by `id`. -/
structure TrackR where
  id : Int
deriving DecidableEq

/-- `Array.prototype.findIndex`: index of the first match, `-1` if none. -/
def jsFindIndex {α : Type} (l : List α) (p : α → Bool) : Int :=
  match l.findIdx? p with
  | some i => (i : Int)
  | none => -1

/-- The id-matching predicate `track.id === currentTrack?.id`: when
`currentTrack` is `null`, the optional chain gives `undefined` and the
strict comparison is always false. -/
def matchesCurrent (cur : Option TrackR) (t : TrackR) : Bool :=
  match cur with
  | some c => t.id == c.id
  | none => false

/-- `handleNext` (`src/unnamed/part_002` lines 88-94): `none` models the
early return on an empty playlist, otherwise the track passed to
`onTrackChange`. -/
def handleNext (playlist : List TrackR) (cur : Option TrackR) :
    Option TrackR :=
  if playlist.isEmpty then none
  else
    let currentIndex := jsFindIndex playlist (matchesCurrent cur)
    let nextIndex : Int :=
      if currentIndex < (playlist.length : Int) - 1 then currentIndex + 1 else 0
    playlist[nextIndex.toNat]?

/-- `handlePrevious` (`src/unnamed/part_002` lines 80-86). -/
def handlePrevious (playlist : List TrackR) (cur : Option TrackR) :
    Option TrackR :=
  if playlist.isEmpty then none
  else
    let currentIndex := jsFindIndex playlist (matchesCurrent cur)
    let prevIndex : Int :=
      if currentIndex > 0 then currentIndex - 1 else (playlist.length : Int) - 1
    playlist[prevIndex.toNat]?

/-- `getAverageFrequency` (`src/unnamed/part_000` lines 199-204): `0` on
`null`/empty data, otherwise `reduce`-sum divided by length. -/
def getAverageFrequency (frequencyData : Option (List Nat)) : ℚ :=
  match frequencyData with
  | none => 0
  | some l =>
    if l.length = 0 then 0
    else ((l.foldl (fun acc value => acc + value) 0 : Nat) : ℚ) / (l.length : ℚ)

theorem stringMk_data (s : String) : String.mk s.data = s := by
  cases s; rfl

theorem isDigit_toNat {c : Char} (h : c.isDigit = true) :
    48 ≤ c.toNat ∧ c.toNat ≤ 57 := by
  simp only [Char.isDigit, decide_eq_true_eq, Bool.and_eq_true] at h
  obtain ⟨h1, h2⟩ := h
  constructor
  · exact h1
  · exact h2

theorem digitChar_isDigit {d : Nat} (h : d < 10) : (digitChar d).isDigit = true := by
  interval_cases d <;> decide

theorem digitChar_toNat {d : Nat} (h : d < 10) : (digitChar d).toNat = 48 + d := by
  interval_cases d <;> decide

theorem natToCharsAux_digits {fuel n : Nat} (h : n < fuel) :
    ∀ c ∈ natToCharsAux fuel n, c.isDigit = true := by
  induction fuel generalizing n with
  | zero => omega
  | succ f ih =>
    intro c hc
    rw [natToCharsAux] at hc
    by_cases h10 : n < 10
    · simp [h10] at hc
      subst hc
      exact digitChar_isDigit (by omega)
    · simp [h10] at hc
      rcases hc with hc | hc
      · exact ih (by have := Nat.div_lt_self (by omega : 0 < n) (by omega : 1 < 10); omega) c hc
      · subst hc
        exact digitChar_isDigit (Nat.mod_lt _ (by omega))

theorem natToCharsAux_ne_nil {fuel n : Nat} (h : n < fuel) :
    natToCharsAux fuel n ≠ [] := by
  cases fuel with
  | zero => omega
  | succ f =>
    rw [natToCharsAux]
    by_cases h10 : n < 10 <;> simp [h10]

theorem takeDigits_stop {rest : List Char} (h : delimOk rest = true) (acc : Nat) :
    takeDigits rest acc = (acc, rest) := by
  cases rest with
  | nil => rfl
  | cons c cs =>
    simp only [delimOk, Bool.not_eq_true'] at h
    simp [takeDigits, h]

theorem takeDigits_natToCharsAux {fuel n : Nat} (h : n < fuel) (rest : List Char) (acc : Nat) :
    takeDigits (natToCharsAux fuel n ++ rest) acc =
      takeDigits rest (acc * 10 ^ (natToCharsAux fuel n).length + n) := by
  induction fuel generalizing n acc rest with
  | zero => omega
  | succ f ih =>
    rw [natToCharsAux]
    by_cases h10 : n < 10
    · simp only [h10, if_true, List.singleton_append, List.length_singleton]
      rw [takeDigits]
      simp [digitChar_isDigit h10, digitChar_toNat h10]
    · simp only [h10, if_false, List.append_assoc, List.length_append, List.length_singleton]
      have hdiv : n / 10 < f := by
        have := Nat.div_lt_self (by omega : 0 < n) (by omega : 1 < 10)
        omega
      rw [ih hdiv]
      simp only [List.singleton_append]
      rw [takeDigits]
      simp only [digitChar_isDigit (Nat.mod_lt n (by omega)),
        digitChar_toNat (Nat.mod_lt n (by omega)), if_true]
      congr 1
      rw [pow_succ, ← Nat.mul_assoc]
      generalize acc * 10 ^ (natToCharsAux f (n / 10)).length = A
      have hnm : 10 * (n / 10) + n % 10 = n := Nat.div_add_mod n 10
      omega

theorem natToChars_parse (n : Nat) (rest : List Char) (h : delimOk rest = true) :
    ∃ c cs, natToChars n ++ rest = c :: cs ∧ c.isDigit = true ∧
      takeDigits cs (c.toNat - 48) = (n, rest) := by
  have hlt : n < n + 1 := Nat.lt_succ_self n
  obtain ⟨c, cs0, hcons⟩ : ∃ c cs0, natToCharsAux (n+1) n = c :: cs0 := by
    cases hx : natToCharsAux (n+1) n with
    | nil => exact absurd hx (natToCharsAux_ne_nil hlt)
    | cons a as => exact ⟨a, as, rfl⟩
  have hdig : c.isDigit = true := by
    exact natToCharsAux_digits hlt c (by rw [hcons]; exact List.mem_cons_self _ _)
  refine ⟨c, cs0 ++ rest, ?_, hdig, ?_⟩
  · rw [natToChars, hcons]; simp
  · have hfull := takeDigits_natToCharsAux hlt rest 0
    rw [hcons] at hfull
    simp only [List.cons_append] at hfull
    rw [takeDigits, if_pos hdig] at hfull
    rw [takeDigits_stop h] at hfull
    simpa using hfull

theorem hexChar_facts {x : Nat} (h : x < 16) :
    isHexChar (hexChar x) = true ∧ hexVal (hexChar x) = x := by
  interval_cases x <;> exact ⟨by decide, by decide⟩

theorem parseStrAux_u (a b c d : Char) (X : List Char)
    (ha : isHexChar a = true) (hb : isHexChar b = true)
    (hc : isHexChar c = true) (hd : isHexChar d = true) :
    parseStrAux ('\\' :: 'u' :: a :: b :: c :: d :: X) =
      (parseStrAux X).map (fun p =>
        (Char.ofNat (hexVal a * 4096 + hexVal b * 256 + hexVal c * 16 + hexVal d)
          :: p.1, p.2)) := by
  rw [parseStrAux.eq_def]
  simp [ha, hb, hc, hd]

theorem parseStrAux_escape (l : List Char) (rest : List Char) :
    parseStrAux ((l.map escapeChar).flatten ++ '"' :: rest) = some (l, rest) := by
  induction l with
  | nil =>
    have h : parseStrAux ('"' :: rest) = some ([], rest) := by
      rw [parseStrAux.eq_def]; simp
    simpa using h
  | cons c cs ih =>
    simp only [List.map_cons, List.flatten_cons, List.append_assoc]
    rw [escapeChar]
    by_cases h1 : c = '"'
    · subst h1
      have step : parseStrAux ('\\' :: '"' :: ((cs.map escapeChar).flatten ++ '"' :: rest)) =
          (parseStrAux ((cs.map escapeChar).flatten ++ '"' :: rest)).map
            (fun p => ('"' :: p.1, p.2)) := by
        rw [parseStrAux.eq_def]; simp
      simp [step, ih]
    · rw [if_neg h1]
      by_cases h2 : c = '\\'
      · subst h2
        have step : parseStrAux ('\\' :: '\\' :: ((cs.map escapeChar).flatten ++ '"' :: rest)) =
            (parseStrAux ((cs.map escapeChar).flatten ++ '"' :: rest)).map
              (fun p => ('\\' :: p.1, p.2)) := by
          rw [parseStrAux.eq_def]; simp
        simp [step, ih]
      · rw [if_neg h2]
        by_cases h3 : c.toNat = 8
        · rw [if_pos h3]
          have hc : Char.ofNat 8 = c := by rw [← h3]; exact Char.ofNat_toNat c
          have step : parseStrAux ('\\' :: 'b' :: ((cs.map escapeChar).flatten ++ '"' :: rest)) =
              (parseStrAux ((cs.map escapeChar).flatten ++ '"' :: rest)).map
                (fun p => (Char.ofNat 8 :: p.1, p.2)) := by
            rw [parseStrAux.eq_def]; simp
          simpa [step, ih] using hc
        · rw [if_neg h3]
          by_cases h4 : c.toNat = 9
          · rw [if_pos h4]
            have hc : Char.ofNat 9 = c := by rw [← h4]; exact Char.ofNat_toNat c
            have step : parseStrAux ('\\' :: 't' :: ((cs.map escapeChar).flatten ++ '"' :: rest)) =
                (parseStrAux ((cs.map escapeChar).flatten ++ '"' :: rest)).map
                  (fun p => (Char.ofNat 9 :: p.1, p.2)) := by
              rw [parseStrAux.eq_def]; simp
            simpa [step, ih] using hc
          · rw [if_neg h4]
            by_cases h5 : c.toNat = 10
            · rw [if_pos h5]
              have hc : Char.ofNat 10 = c := by rw [← h5]; exact Char.ofNat_toNat c
              have step : parseStrAux ('\\' :: 'n' :: ((cs.map escapeChar).flatten ++ '"' :: rest)) =
                  (parseStrAux ((cs.map escapeChar).flatten ++ '"' :: rest)).map
                    (fun p => (Char.ofNat 10 :: p.1, p.2)) := by
                rw [parseStrAux.eq_def]; simp
              simpa [step, ih] using hc
            · rw [if_neg h5]
              by_cases h6 : c.toNat = 12
              · rw [if_pos h6]
                have hc : Char.ofNat 12 = c := by rw [← h6]; exact Char.ofNat_toNat c
                have step : parseStrAux ('\\' :: 'f' :: ((cs.map escapeChar).flatten ++ '"' :: rest)) =
                    (parseStrAux ((cs.map escapeChar).flatten ++ '"' :: rest)).map
                      (fun p => (Char.ofNat 12 :: p.1, p.2)) := by
                  rw [parseStrAux.eq_def]; simp
                simpa [step, ih] using hc
              · rw [if_neg h6]
                by_cases h7 : c.toNat = 13
                · rw [if_pos h7]
                  have hc : Char.ofNat 13 = c := by rw [← h7]; exact Char.ofNat_toNat c
                  have step : parseStrAux ('\\' :: 'r' :: ((cs.map escapeChar).flatten ++ '"' :: rest)) =
                      (parseStrAux ((cs.map escapeChar).flatten ++ '"' :: rest)).map
                        (fun p => (Char.ofNat 13 :: p.1, p.2)) := by
                    rw [parseStrAux.eq_def]; simp
                  simpa [step, ih] using hc
                · rw [if_neg h7]
                  by_cases h8 : c.toNat < 32
                  · rw [if_pos h8]
                    have hhi := hexChar_facts (show c.toNat / 16 < 16 by omega)
                    have hlo := hexChar_facts (show c.toNat % 16 < 16 by omega)
                    simp only [List.cons_append, List.nil_append]
                    rw [parseStrAux_u '0' '0' _ _ _ (by decide) (by decide) hhi.1 hlo.1]
                    rw [ih]
                    have hv : hexVal '0' * 4096 + hexVal '0' * 256 +
                        hexVal (hexChar (c.toNat / 16)) * 16 + hexVal (hexChar (c.toNat % 16)) =
                        c.toNat := by
                      rw [hhi.2, hlo.2]
                      have h0 : hexVal '0' = 0 := by decide
                      rw [h0]
                      omega
                    rw [hv, Char.ofNat_toNat]
                    rfl
                  · rw [if_neg h8]
                    simp only [List.singleton_append, List.cons_append]
                    rw [parseStrAux.eq_def]
                    simp only []
                    rw [if_neg h1, if_neg h2, if_neg h8]
                    simp [ih]

theorem isDigit_ne {c : Char} (x : Char) (h : c.isDigit = true)
    (hx : x.isDigit = false) : ¬(c = x) := by
  intro e
  rw [e, hx] at h
  cases h

theorem jsize_pos : ∀ v, 1 ≤ jsize v := by
  intro v
  cases v with
  | jarr elems => cases elems <;> simp [jsize] <;> omega
  | jobj fields => cases fields <;> simp [jsize] <;> omega
  | _ => simp [jsize]

theorem jsizeItems_pos : ∀ vs, 1 ≤ jsizeItems vs := by
  intro vs
  cases vs <;> simp [jsizeItems] <;> omega

theorem jsizeField_pos : ∀ f, 1 ≤ jsizeField f := by
  intro f
  obtain ⟨k, v⟩ := f
  simp [jsizeField]

theorem jsizeFields_pos : ∀ fs, 1 ≤ jsizeFields fs := by
  intro fs
  cases fs <;> simp [jsizeFields] <;> omega

theorem natToChars_head_digit (n : Nat) (X : List Char) :
    ∃ c cs, natToChars n ++ X = c :: cs ∧ c.isDigit = true := by
  obtain ⟨c, cs, hcons, hdig, _⟩ := natToChars_parse n [] rfl
  simp only [List.append_nil] at hcons
  exact ⟨c, cs ++ X, by rw [← List.cons_append, ← hcons], hdig⟩

theorem render_head_ne (v : JsVal) (X : List Char) :
    ¬((render v ++ X).head? = some ']') ∧ ¬((render v ++ X).head? = some '}') := by
  cases v with
  | jnull => simp [render]
  | jbool b => cases b <;> simp [render]
  | jnum n =>
    rw [render]
    rw [intToChars]
    by_cases hn : n < 0
    · simp [hn]
    · rw [if_neg hn]
      obtain ⟨c, cs, hcons, hdig⟩ := natToChars_head_digit n.toNat X
      rw [hcons]
      have h1 := isDigit_ne ']' hdig (by decide)
      have h2 := isDigit_ne '}' hdig (by decide)
      simp [h1, h2]
  | jstr s => simp [render, renderString]
  | jarr elems => cases elems <;> simp [render]
  | jobj fields => cases fields <;> simp [render]
  | jfile a b c => simp [render]

theorem delimOk_renderItems (vs : List JsVal) (X : List Char) :
    delimOk (renderItems vs ++ X) = true := by
  cases vs <;> simp [renderItems, delimOk]

theorem delimOk_renderFields (fs : List (String × JsVal)) (X : List Char) :
    delimOk (renderFields fs ++ X) = true := by
  cases fs with
  | nil => simp [renderFields, delimOk]
  | cons f fs => simp [renderFields, delimOk]

theorem parse_render_all : ∀ fuel : Nat,
    (∀ v rest, jsize v < fuel → delimOk rest = true →
      parseVal fuel (render v ++ rest) = some (scrub v, rest)) ∧
    (∀ vs rest, jsizeItems vs < fuel → delimOk rest = true →
      parseItems fuel (renderItems vs ++ rest) = some (scrubList vs, rest)) ∧
    (∀ k v rest, jsizeField (k, v) < fuel → delimOk rest = true →
      parseField fuel (renderField (k, v) ++ rest) = some ((k, scrub v), rest)) ∧
    (∀ fs rest, jsizeFields fs < fuel → delimOk rest = true →
      parseFields fuel (renderFields fs ++ rest) = some (scrubFields fs, rest)) := by
  intro fuel
  induction fuel with
  | zero =>
    refine ⟨?_, ?_, ?_, ?_⟩
    · intro v rest h; omega
    · intro vs rest h; omega
    · intro k v rest h; omega
    · intro fs rest h; omega
  | succ f ih =>
    obtain ⟨ihV, ihI, ihF, ihS⟩ := ih
    refine ⟨?_, ?_, ?_, ?_⟩
    · -- parseVal
      intro v rest hsz hrest
      cases v with
      | jnull =>
        simp [render, scrub, parseVal, expectChars]
      | jbool b =>
        cases b <;> simp [render, scrub, parseVal, expectChars]
      | jnum n =>
        rw [render, scrub, intToChars]
        by_cases hn : n < 0
        · rw [if_pos hn]
          obtain ⟨c, cs, hcons, hdig, htake⟩ := natToChars_parse n.natAbs rest hrest
          rw [List.cons_append, hcons]
          rw [parseVal.eq_def]
          simp only []
          rw [if_neg (by decide), if_neg (by decide), if_neg (by decide),
            if_neg (by decide), if_neg (by decide), if_neg (by decide)]
          simp only [if_true]
          rw [parseNeg.eq_def]
          simp only []
          rw [if_pos hdig, htake]
          have h2 : -((n.natAbs : Int)) = n := by omega
          simp only [h2]
        · rw [if_neg hn]
          obtain ⟨c, cs, hcons, hdig, htake⟩ := natToChars_parse n.toNat rest hrest
          rw [hcons]
          rw [parseVal.eq_def]
          simp only []
          rw [if_neg (isDigit_ne 'n' hdig (by decide)),
            if_neg (isDigit_ne 't' hdig (by decide)),
            if_neg (isDigit_ne 'f' hdig (by decide)),
            if_neg (isDigit_ne '"' hdig (by decide)),
            if_neg (isDigit_ne '[' hdig (by decide)),
            if_neg (isDigit_ne '{' hdig (by decide)),
            if_neg (isDigit_ne '-' hdig (by decide))]
          rw [if_pos hdig, htake]
          have h2 : ((n.toNat : Int)) = n := by omega
          simp only [h2]
      | jstr s =>
        rw [render, scrub, renderString]
        rw [parseVal.eq_def]
        simp only [List.cons_append, List.append_assoc, List.singleton_append]
        rw [if_neg (by decide), if_neg (by decide), if_neg (by decide)]
        simp only [if_true]
        rw [parseStrAux_escape]
        simp [stringMk_data]
      | jarr elems =>
        cases elems with
        | nil =>
          rw [render, scrub]
          rw [parseVal.eq_def]
          simp [scrubList]
        | cons v vs =>
          rw [render, scrub]
          have hszv : jsize v < f := by
            rw [jsize] at hsz
            have := jsizeItems_pos vs
            omega
          have hszi : jsizeItems vs < f := by
            rw [jsize] at hsz
            have := jsize_pos v
            omega
          rw [parseVal.eq_def]
          simp only [List.cons_append, List.append_assoc]
          rw [if_neg (by decide), if_neg (by decide), if_neg (by decide),
            if_neg (by decide)]
          simp only [if_true]
          rw [if_neg (render_head_ne v (renderItems vs ++ rest)).1]
          rw [ihV v _ hszv (delimOk_renderItems vs rest)]
          simp only [Option.some_bind]
          rw [ihI vs rest hszi hrest]
          simp [scrubList]
      | jobj fields =>
        cases fields with
        | nil =>
          rw [render, scrub]
          rw [parseVal.eq_def]
          simp [scrubFields]
        | cons fld fs =>
          obtain ⟨k, v⟩ := fld
          rw [render, scrub]
          have hszf : jsizeField (k, v) < f := by
            rw [jsize] at hsz
            have := jsizeFields_pos fs
            omega
          have hszs : jsizeFields fs < f := by
            rw [jsize] at hsz
            have := jsizeField_pos (k, v)
            omega
          rw [parseVal.eq_def]
          simp only [List.cons_append, List.append_assoc]
          rw [if_neg (by decide), if_neg (by decide), if_neg (by decide),
            if_neg (by decide), if_neg (by decide)]
          simp only [if_true]
          have hhead : ¬((renderField (k, v) ++ (renderFields fs ++ rest)).head? = some '}') := by
            rw [renderField, renderString]
            simp
          rw [if_neg hhead]
          rw [ihF k v _ hszf (delimOk_renderFields fs rest)]
          simp only [Option.some_bind]
          rw [ihS fs rest hszs hrest]
          simp [scrubFields]
      | jfile a b c =>
        rw [render, scrub]
        rw [parseVal.eq_def]
        simp
    · -- parseItems
      intro vs rest hsz hrest
      cases vs with
      | nil =>
        rw [renderItems, scrubList]
        rw [parseItems.eq_def]
        simp
      | cons v vs' =>
        rw [renderItems, scrubList]
        have hszv : jsize v < f := by
          rw [jsizeItems] at hsz
          have := jsizeItems_pos vs'
          omega
        have hszi : jsizeItems vs' < f := by
          rw [jsizeItems] at hsz
          have := jsize_pos v
          omega
        rw [parseItems.eq_def]
        simp only [List.cons_append, List.append_assoc]
        rw [if_neg (by decide)]
        simp only [if_true]
        rw [ihV v _ hszv (delimOk_renderItems vs' rest)]
        simp only [Option.some_bind]
        rw [ihI vs' rest hszi hrest]
        simp
    · -- parseField
      intro k v rest hsz hrest
      rw [renderField]
      have hszv : jsize v < f := by
        rw [jsizeField] at hsz
        omega
      rw [parseField.eq_def]
      simp only [renderString, List.cons_append, List.append_assoc, List.singleton_append]
      simp only [if_true]
      rw [parseStrAux_escape]
      simp only [Option.some_bind, List.nil_append, List.head?_cons, List.tail_cons, if_true]
      rw [ihV v rest hszv hrest]
      simp [stringMk_data]
    · -- parseFields
      intro fs rest hsz hrest
      cases fs with
      | nil =>
        rw [renderFields, scrubFields]
        rw [parseFields.eq_def]
        simp
      | cons fld fs' =>
        obtain ⟨k, v⟩ := fld
        rw [renderFields, scrubFields]
        have hszf : jsizeField (k, v) < f := by
          rw [jsizeFields] at hsz
          have := jsizeFields_pos fs'
          omega
        have hszs : jsizeFields fs' < f := by
          rw [jsizeFields] at hsz
          have := jsizeField_pos (k, v)
          omega
        rw [parseFields.eq_def]
        simp only [List.cons_append, List.append_assoc]
        rw [if_neg (by decide)]
        simp only [if_true]
        rw [ihF k v _ hszf (delimOk_renderFields fs' rest)]
        simp only [Option.some_bind]
        rw [ihS fs' rest hszs hrest]
        simp

mutual
theorem jsize_le_render (v : JsVal) : jsize v ≤ (render v).length := by
  cases v with
  | jnull => simp [jsize, render]
  | jbool b => cases b <;> simp [jsize, render]
  | jnum n =>
    rw [jsize, render, intToChars]
    by_cases hn : n < 0
    · simp [hn]
    · rw [if_neg hn, natToChars]
      have hne := natToCharsAux_ne_nil (Nat.lt_succ_self n.toNat)
      cases hx : natToCharsAux (n.toNat + 1) n.toNat with
      | nil => exact absurd hx hne
      | cons a as => simp [hx]
  | jstr s => simp [jsize, render, renderString]
  | jarr elems =>
    cases elems with
    | nil => simp [jsize, render]
    | cons v vs =>
      rw [jsize, render]
      have h1 := jsize_le_render v
      have h2 := jsizeItems_le_render vs
      simp only [List.length_cons, List.length_append]
      omega
  | jobj fields =>
    cases fields with
    | nil => simp [jsize, render]
    | cons fd fs =>
      rw [jsize, render]
      have h1 := jsizeField_le_render fd
      have h2 := jsizeFields_le_render fs
      simp only [List.length_cons, List.length_append]
      omega
  | jfile a b c => simp [jsize, render]

theorem jsizeItems_le_render (vs : List JsVal) : jsizeItems vs ≤ (renderItems vs).length := by
  cases vs with
  | nil => simp [jsizeItems, renderItems]
  | cons v vs =>
    rw [jsizeItems, renderItems]
    have h1 := jsize_le_render v
    have h2 := jsizeItems_le_render vs
    simp only [List.length_cons, List.length_append]
    omega

theorem jsizeField_le_render (f : String × JsVal) : jsizeField f ≤ (renderField f).length := by
  obtain ⟨k, v⟩ := f
  rw [jsizeField, renderField]
  have h1 := jsize_le_render v
  simp only [renderString, List.length_append, List.length_cons]
  omega

theorem jsizeFields_le_render (fs : List (String × JsVal)) :
    jsizeFields fs ≤ (renderFields fs).length := by
  cases fs with
  | nil => simp [jsizeFields, renderFields]
  | cons f fs =>
    rw [jsizeFields, renderFields]
    have h1 := jsizeField_le_render f
    have h2 := jsizeFields_le_render fs
    simp only [List.length_cons, List.length_append]
    omega
end

theorem parseVal_render (v : JsVal) (fuel : Nat) (h : jsize v < fuel) (rest : List Char)
    (hrest : delimOk rest = true) :
    parseVal fuel (render v ++ rest) = some (scrub v, rest) :=
  (parse_render_all fuel).1 v rest h hrest

theorem parseJson_render (v : JsVal) :
    parseJson (String.mk (render v)) = some (scrub v) := by
  rw [parseJson]
  have hdata : (String.mk (render v)).data = render v := rfl
  have hlen : (String.mk (render v)).length = (render v).length := rfl
  rw [hdata, hlen]
  have h := parseVal_render v ((render v).length + 1)
    (Nat.lt_succ_of_le (jsize_le_render v)) [] rfl
  rw [List.append_nil] at h
  rw [h]

mutual
theorem scrub_eq_self {v : JsVal} (h : noFile v = true) : scrub v = v := by
  cases v with
  | jnull => rw [scrub]
  | jbool b => rw [scrub]
  | jnum n => rw [scrub]
  | jstr s => rw [scrub]
  | jarr elems =>
    rw [scrub, scrubList_eq_self (by rw [noFile] at h; exact h)]
  | jobj fields =>
    rw [scrub, scrubFields_eq_self (by rw [noFile] at h; exact h)]
  | jfile a b c =>
    rw [noFile] at h
    cases h

theorem scrubList_eq_self {vs : List JsVal} (h : noFileList vs = true) :
    scrubList vs = vs := by
  cases vs with
  | nil => rw [scrubList]
  | cons v vs =>
    rw [noFileList, Bool.and_eq_true] at h
    rw [scrubList, scrub_eq_self h.1, scrubList_eq_self h.2]

theorem scrubFields_eq_self {fs : List (String × JsVal)} (h : noFileFields fs = true) :
    scrubFields fs = fs := by
  cases fs with
  | nil => rw [scrubFields]
  | cons f fs =>
    obtain ⟨k, v⟩ := f
    rw [noFileFields, Bool.and_eq_true] at h
    rw [scrubFields, scrub_eq_self h.1, scrubFields_eq_self h.2]
end

theorem replaceFirst_noDot (base : List Char) (h : '.' ∉ base) :
    replaceFirst (base ++ ".mp3".data) ".mp3".data [] = base := by
  induction base with
  | nil => rfl
  | cons c rest ih =>
    rw [List.cons_append, replaceFirst]
    have hc : ('.' == c) = false := by
      simp only [beq_eq_false_iff_ne, ne_eq]
      intro e
      exact h (e ▸ List.mem_cons_self c rest)
    have hpre : (".mp3".data.isPrefixOf (c :: (rest ++ ".mp3".data))) = false := by
      show (('.' :: "mp3".data).isPrefixOf (c :: (rest ++ ".mp3".data))) = false
      simp [List.isPrefixOf, hc]
    rw [hpre]
    simp only [Bool.false_eq_true, if_false, List.cons.injEq, true_and]
    exact ih (fun hm => h (List.mem_cons_of_mem c hm))

/-- C1, counterexample: the claim's single acceptance condition does not
describe the code.  A 50MB+1 `audio/mpeg` file named `track.mp3` must be
rejected per the claim, yet both `validateAudioFile` and the Home page's
upload filter accept it (neither checks size); conversely a file with
MIME type `audio/mp3` but a non-`.mp3` name must be accepted per the
claim, yet the `FileUpload` component rejects it. -/
theorem C1_counterexample :
    validateAudioFile (some ⟨"track.mp3", "audio/mpeg", 52428801⟩) = true ∧
    handleFileUpload [⟨"track.mp3", "audio/mpeg", 52428801⟩] =
      [⟨"track.mp3", "audio/mpeg", 52428801⟩] ∧
    specAccepts ⟨"track.mp3", "audio/mpeg", 52428801⟩ = false ∧
    handleFileSelect (some ⟨"song.bin", "audio/mp3", 10⟩) =
      .rejected "Please select an MP3 file only" ∧
    specAccepts ⟨"song.bin", "audio/mp3", 10⟩ = true :=
  ⟨rfl, rfl, rfl, rfl, rfl⟩

/-- C1, amended: the three filters disagree, and each is characterized
exactly: the `FileUpload` component accepts iff (MIME `audio/mpeg` or
case-insensitive `.mp3` name) and size at most 50MB; `validateAudioFile`
accepts iff MIME `audio/mp3`/`audio/mpeg` or case-insensitive `.mp3`
name, with no size bound; the Home page's upload handler keeps exactly
the files with MIME `audio/mpeg`. -/
theorem C1_amended (f : FileHandle) :
    (handleFileSelect (some f) = SelectResult.accepted f ↔
      ((f.type == "audio/mpeg" || jsEndsWith (jsToLower f.name) ".mp3") &&
        decide (f.size ≤ 50 * 1024 * 1024)) = true) ∧
    validateAudioFile (some f) =
      (f.type == "audio/mp3" || f.type == "audio/mpeg" ||
        jsEndsWith (jsToLower f.name) ".mp3") ∧
    handleFileUpload [f] = (if f.type == "audio/mpeg" then [f] else []) := by
  refine ⟨?_, ?_, ?_⟩
  · rw [handleFileSelect]
    cases ht : (f.type == "audio/mpeg") <;>
      cases he : jsEndsWith (jsToLower f.name) ".mp3"
    · simp [bne, ht, he]
    · by_cases hs : f.size > 50 * 1024 * 1024
      · simp [bne, ht, he, hs]
        try omega
      · simp [bne, ht, he, hs]
        try omega
    · by_cases hs : f.size > 50 * 1024 * 1024
      · simp [bne, ht, he, hs]
        try omega
      · simp [bne, ht, he, hs]
        try omega
    · by_cases hs : f.size > 50 * 1024 * 1024
      · simp [bne, ht, he, hs]
        try omega
      · simp [bne, ht, he, hs]
        try omega
  · rw [validateAudioFile]
    simp [validTypes, validExtensions]
    cases h1 : (f.type == "audio/mp3") <;>
      cases h2 : (f.type == "audio/mpeg") <;>
        simp_all [List.contains_cons]
  · rw [handleFileUpload]
    cases h : (f.type == "audio/mpeg") <;> simp [List.filter, h]

/-- C3, counterexample: the track created for a file named `song.MP3`
has exactly the fields `id, name, url, file` — there is no `duration`
field — and its `name` keeps the `.MP3` extension because
`String#replace('.mp3', '')` is case-sensitive and only removes the
first occurrence of the literal substring. -/
theorem C3_counterexample :
    jsonKeys (newTrack 1700000000000 0 ⟨"song.MP3", "audio/mpeg", 7⟩ "data:x") =
      ["id", "name", "url", "file"] ∧
    ¬("duration" ∈ jsonKeys
      (newTrack 1700000000000 0 ⟨"song.MP3", "audio/mpeg", 7⟩ "data:x")) ∧
    getField (newTrack 1700000000000 0 ⟨"song.MP3", "audio/mpeg", 7⟩ "data:x")
      "name" = some (.jstr "song.MP3") := by
  refine ⟨rfl, by decide, rfl⟩

/-- C3, amended: every track created on file selection is an object with
exactly the fields `id, name, url, file` (no `duration`), `id` is the
timestamp plus the random value, `url` is the reader's data URL, `file`
is the `File` handle, and `name` is the file name with the first
occurrence of the literal substring `.mp3` removed — which equals the
name with its extension stripped whenever the base name contains no dot
and the extension is lowercase `.mp3`. -/
theorem C3_amended (now rand : Int) (f : FileHandle) (dataUrl : String) :
    jsonKeys (newTrack now rand f dataUrl) = ["id", "name", "url", "file"] ∧
    getField (newTrack now rand f dataUrl) "id" = some (.jnum (now + rand)) ∧
    getField (newTrack now rand f dataUrl) "name" =
      some (.jstr (String.mk (replaceFirst f.name.data ".mp3".data []))) ∧
    getField (newTrack now rand f dataUrl) "url" = some (.jstr dataUrl) ∧
    getField (newTrack now rand f dataUrl) "file" =
      some (.jfile f.name f.type f.size) ∧
    (∀ base : List Char, '.' ∉ base →
      replaceFirst (base ++ ".mp3".data) ".mp3".data [] = base) := by
  exact ⟨rfl, rfl, rfl, rfl, rfl, replaceFirst_noDot⟩

/-- C4, counterexample: with the corrupted string `{` stored under
`musicPlayerPlaylist`, the Home page's load effect calls `JSON.parse`
with no `try`/`catch`, so the `SyntaxError` escapes the effect instead
of being surfaced as a message or log. -/
theorem C4_counterexample :
    homeLoadPlaylist (setItem "musicPlayerPlaylist" "\x7b" emptyStore) =
      .error "SyntaxError: JSON.parse" ∧
    exceptOk (homeLoadPlaylist
      (setItem "musicPlayerPlaylist" "\x7b" emptyStore)) = false :=
  ⟨rfl, rfl⟩

/-- C4, amended: the utility operations — `loadFromLocalStorage`,
`saveToLocalStorage` (even when the host `setItem` throws) and
`createAudioContext` (even when the host constructor throws) — catch
internally and return normally on every input; but the Home page's
playlist-load effect parses without catching, so corrupted stored JSON
escapes as an exception. -/
theorem C4_amended :
    (∀ (key : String) (st : Store),
      exceptOk (loadFromLocalStorage key st) = true) ∧
    (∀ (hostFail : Bool) (key : String) (audioData : List (String × JsVal))
      (now : Int) (st : Store),
      exceptOk (saveToLocalStorageChecked hostFail key audioData now st) = true) ∧
    (∀ host : Except String Unit, exceptOk (createAudioContext host) = true) ∧
    exceptOk (homeLoadPlaylist
      (setItem "musicPlayerPlaylist" "\x7b" emptyStore)) = false := by
  refine ⟨?_, ?_, ?_, rfl⟩
  · intro key st
    rw [loadFromLocalStorage]
    cases loadFromLocalStorageBody key st <;> rfl
  · intro hostFail key audioData now st
    rw [saveToLocalStorageChecked]
    cases hostFail <;> rfl
  · intro host
    cases host <;> rfl

theorem homeStep_stays_cancelled (evs : List VizEvent) :
    ∀ s : VizState, s.pending = false → (∀ e ∈ evs, e ≠ VizEvent.play) →
      (runViz homeStep s evs).pending = false := by
  induction evs with
  | nil => intro s h _; exact h
  | cons e es ih =>
    intro s h hnp
    show (runViz homeStep (homeStep s e) es).pending = false
    refine ih (homeStep s e) ?_ (fun e' he' => hnp e' (List.mem_cons_of_mem e he'))
    cases e with
    | play => exact absurd rfl (hnp _ (List.mem_cons_self _ _))
    | pause =>
      rw [homeStep]
      by_cases hd : (s.mounted && s.isPlaying) = true <;> simp [hd, h]
    | frame =>
      rw [homeStep]
      simp [h]
    | unmount =>
      rw [homeStep]
      exact h

theorem avStep_stays_cancelled (evs : List VizEvent) :
    ∀ s : VizState, s.pending = false → (∀ e ∈ evs, e ≠ VizEvent.play) →
      (runViz avStep s evs).pending = false := by
  induction evs with
  | nil => intro s h _; exact h
  | cons e es ih =>
    intro s h hnp
    show (runViz avStep (avStep s e) es).pending = false
    refine ih (avStep s e) ?_ (fun e' he' => hnp e' (List.mem_cons_of_mem e he'))
    cases e with
    | play => exact absurd rfl (hnp _ (List.mem_cons_self _ _))
    | pause =>
      rw [avStep]
      by_cases hd : (s.mounted && s.isPlaying) = true <;> simp [hd, h]
    | frame =>
      rw [avStep]
      simp [h]
    | unmount =>
      rw [avStep]

/-- C7, counterexample: in the Home page machine, unmounting performs no
cleanup — after `play` then `unmount` the scheduled frame is still
pending, and when it fires the draw callback runs and schedules another
frame, all after the unmount event. -/
theorem C7_counterexample :
    (runViz homeStep initViz [.play, .unmount]).pending = true ∧
    (runViz homeStep initViz [.play, .unmount, .frame]).draws = 1 ∧
    (runViz homeStep initViz [.play, .unmount, .frame]).pending = true := by
  exact ⟨rfl, rfl, rfl⟩

/-- C7, amended: in both machines a frame is pending only while playback
is active (the invariant is preserved by every event), and after a pause
(of a mounted, consistent state) no draw callback is ever scheduled
again while no play event intervenes; the AudioVisualizer machine also
cancels on unmount, but the Home machine does not — after `play` then
`unmount`, frames keep firing and rescheduling. -/
theorem C7_amended :
    (∀ (s : VizState) (e : VizEvent), (s.pending = true → s.isPlaying = true) →
      ((homeStep s e).pending = true → (homeStep s e).isPlaying = true) ∧
      ((avStep s e).pending = true → (avStep s e).isPlaying = true)) ∧
    (∀ (s : VizState) (evs : List VizEvent),
      s.mounted = true → (s.pending = true → s.isPlaying = true) →
      (∀ e ∈ evs, e ≠ VizEvent.play) →
      (runViz homeStep (homeStep s .pause) evs).pending = false ∧
      (runViz avStep (avStep s .pause) evs).pending = false ∧
      (runViz avStep (avStep s .unmount) evs).pending = false) ∧
    (runViz homeStep initViz [.play, .unmount, .frame, .frame]).pending = true := by
  refine ⟨?_, ?_, rfl⟩
  · intro s e hinv
    constructor
    · cases e with
      | play =>
        rw [homeStep]
        by_cases hc : (s.mounted && !s.isPlaying) = true
        · rw [if_pos hc]; simp
        · rw [if_neg hc]; exact hinv
      | pause =>
        rw [homeStep]
        by_cases hc : (s.mounted && s.isPlaying) = true
        · rw [if_pos hc]; simp
        · rw [if_neg hc]; exact hinv
      | frame =>
        rw [homeStep]
        by_cases hc : s.pending = true
        · rw [if_pos hc]; simp [hinv hc]
        · rw [if_neg hc]; exact hinv
      | unmount =>
        rw [homeStep]
        simpa using hinv
    · cases e with
      | play =>
        rw [avStep]
        by_cases hc : (s.mounted && !s.isPlaying) = true
        · rw [if_pos hc]; simp
        · rw [if_neg hc]; exact hinv
      | pause =>
        rw [avStep]
        by_cases hc : (s.mounted && s.isPlaying) = true
        · rw [if_pos hc]; simp
        · rw [if_neg hc]; exact hinv
      | frame =>
        rw [avStep]
        by_cases hc : s.pending = true
        · rw [if_pos hc]; simp [hinv hc]
        · rw [if_neg hc]; exact hinv
      | unmount =>
        rw [avStep]
        simp
  · intro s evs hm hinv hnp
    have hpauseHome : (homeStep s .pause).pending = false := by
      rw [homeStep]
      by_cases hp : s.isPlaying = true
      · simp [hm, hp]
      · have : s.pending = false := by
          cases hpend : s.pending
          · rfl
          · exact absurd (hinv hpend) hp
        simp [hm, hp, this]
    have hpauseAv : (avStep s .pause).pending = false := by
      rw [avStep]
      by_cases hp : s.isPlaying = true
      · simp [hm, hp]
      · have : s.pending = false := by
          cases hpend : s.pending
          · rfl
          · exact absurd (hinv hpend) hp
        simp [hm, hp, this]
    have hunmountAv : (avStep s .unmount).pending = false := by
      rw [avStep]
    exact ⟨homeStep_stays_cancelled evs _ hpauseHome hnp,
      avStep_stays_cancelled evs _ hpauseAv hnp,
      avStep_stays_cancelled evs _ hunmountAv hnp⟩

/-- C7, witness for the amended theorem at a concrete run: pausing from
the playing state cancels, and the subsequent frame events schedule
nothing in either machine. -/
theorem C7_witness :
    (runViz homeStep (homeStep (runViz homeStep initViz [.play]) .pause)
      [.frame, .frame]).pending = false ∧
    (runViz avStep (avStep (runViz homeStep initViz [.play]) .unmount)
      [.frame, .frame]).pending = false := by
  have h := C7_amended.2.1 (runViz homeStep initViz [.play]) [.frame, .frame]
    rfl (fun _ => rfl) (by intro e he; fin_cases he <;> decide)
  exact ⟨h.1, h.2.2⟩

/-- C10: `getAverageFrequency` returns `0` for `null` or empty data, and
otherwise the arithmetic mean (sum divided by length) of the entries,
which lies between `0` and `255` whenever every entry is a byte value. -/
theorem C10_average_frequency :
    getAverageFrequency none = 0 ∧
    getAverageFrequency (some []) = 0 ∧
    (∀ l : List Nat, l ≠ [] → (∀ x ∈ l, x ≤ 255) →
      getAverageFrequency (some l) = (l.sum : ℚ) / (l.length : ℚ) ∧
      0 ≤ getAverageFrequency (some l) ∧
      getAverageFrequency (some l) ≤ 255) := by
  refine ⟨rfl, rfl, ?_⟩
  intro l hne hb
  have hlen : l.length ≠ 0 := fun h => hne (List.length_eq_zero.mp h)
  have hfold : l.foldl (fun acc value => acc + value) 0 = l.sum := by
    rw [List.sum_eq_foldl]
  have havg : getAverageFrequency (some l) = (l.sum : ℚ) / (l.length : ℚ) := by
    rw [getAverageFrequency, if_neg hlen, hfold]
  have hlenpos : (0 : ℚ) < (l.length : ℚ) := by
    have : 0 < l.length := Nat.pos_of_ne_zero hlen
    exact_mod_cast this
  refine ⟨havg, ?_, ?_⟩
  · rw [havg]
    positivity
  · rw [havg]
    rw [div_le_iff hlenpos]
    have hsum : l.sum ≤ l.length * 255 := by
      calc l.sum ≤ l.length • 255 := List.sum_le_card_nsmul l 255 hb
      _ = l.length * 255 := by simp [smul_eq_mul]
    calc ((l.sum : ℚ)) ≤ ((l.length * 255 : Nat) : ℚ) := by exact_mod_cast hsum
    _ = 255 * (l.length : ℚ) := by push_cast; ring

/-- C10, witness: the mean of `[10, 20, 255]` is `95`, within bounds. -/
theorem C10_witness :
    ([10, 20, 255] : List Nat) ≠ [] ∧ (∀ x ∈ ([10, 20, 255] : List Nat), x ≤ 255) ∧
    getAverageFrequency (some [10, 20, 255]) = 95 ∧
    (0 : ℚ) ≤ getAverageFrequency (some [10, 20, 255]) ∧
    getAverageFrequency (some [10, 20, 255]) ≤ 255 := by
  have h := C10_average_frequency.2.2 [10, 20, 255] (by decide) (by decide)
  refine ⟨by decide, by decide, ?_, h.2.1, h.2.2⟩
  rw [h.1]
  norm_num

/-- C8: with a non-empty playlist, `handleNext` moves to the position
after the current track's (first id-matching) position, wrapping from
the last track to the first, and `handlePrevious` to the position
before, wrapping from the first to the last; when the current track's id
is absent (in particular when `currentTrack` is `null`), `handleNext`
selects the first track and `handlePrevious` the last. -/
theorem C8_next_previous (playlist : List TrackR) (cur : Option TrackR)
    (hne : playlist ≠ []) :
    (playlist.findIdx? (matchesCurrent cur) = none →
      handleNext playlist cur = playlist[0]? ∧
      handlePrevious playlist cur = playlist[playlist.length - 1]?) ∧
    (∀ i, playlist.findIdx? (matchesCurrent cur) = some i →
      handleNext playlist cur = playlist[(i + 1) % playlist.length]? ∧
      handlePrevious playlist cur = playlist[(i + playlist.length - 1) % playlist.length]?) ∧
    playlist.findIdx? (matchesCurrent none) = none := by
  have hemp : ¬(playlist.isEmpty = true) := by
    intro h
    exact hne (List.isEmpty_iff.mp h)
  have hl : 0 < playlist.length := List.length_pos.mpr hne
  refine ⟨?_, ?_, ?_⟩
  · intro hnone
    have hidx : jsFindIndex playlist (matchesCurrent cur) = -1 := by
      rw [jsFindIndex, hnone]
    constructor
    · rw [handleNext, if_neg hemp]
      simp only [hidx]
      rw [if_pos (by omega : (-1 : Int) < (playlist.length : Int) - 1)]
      norm_num
    · rw [handlePrevious, if_neg hemp]
      simp only [hidx]
      rw [if_neg (by omega : ¬((-1 : Int) > 0))]
      congr 1
      omega
  · intro i hsome
    have hlt : i < playlist.length := by
      obtain ⟨h, -⟩ := List.findIdx?_eq_some_iff_getElem.mp hsome
      exact h
    have hidx : jsFindIndex playlist (matchesCurrent cur) = (i : Int) := by
      rw [jsFindIndex, hsome]
    constructor
    · rw [handleNext, if_neg hemp]
      simp only [hidx]
      by_cases hlast : (i : Int) < (playlist.length : Int) - 1
      · rw [if_pos hlast]
        congr 1
        have h1 : i + 1 < playlist.length := by omega
        rw [Nat.mod_eq_of_lt h1]
        omega
      · rw [if_neg hlast]
        have heq : i + 1 = playlist.length := by omega
        rw [heq, Nat.mod_self]
        norm_num
    · rw [handlePrevious, if_neg hemp]
      simp only [hidx]
      by_cases hz : (i : Int) > 0
      · rw [if_pos hz]
        congr 1
        have h1 : i + playlist.length - 1 = (i - 1) + playlist.length := by omega
        rw [h1, Nat.add_mod_right, Nat.mod_eq_of_lt (by omega : i - 1 < playlist.length)]
        omega
      · rw [if_neg hz]
        have hi0 : i = 0 := by omega
        subst hi0
        congr 1
        rw [Nat.zero_add, Nat.mod_eq_of_lt (by omega : playlist.length - 1 < playlist.length)]
        omega
  · rw [List.findIdx?_eq_none_iff]
    intro x _
    rfl

/-- C8, witness: on the playlist `[1, 2, 3]` with track `3` current,
`handleNext` wraps to track `1` and `handlePrevious` selects track `2`;
with no current track, `handleNext` gives the first and `handlePrevious`
the last. -/
theorem C8_witness :
    handleNext [⟨1⟩, ⟨2⟩, ⟨3⟩] (some ⟨3⟩) = some ⟨1⟩ ∧
    handlePrevious [⟨1⟩, ⟨2⟩, ⟨3⟩] (some ⟨3⟩) = some ⟨2⟩ ∧
    handleNext [⟨1⟩, ⟨2⟩, ⟨3⟩] none = some ⟨1⟩ ∧
    handlePrevious [⟨1⟩, ⟨2⟩, ⟨3⟩] none = some ⟨3⟩ := by
  have h3 := C8_next_previous [⟨1⟩, ⟨2⟩, ⟨3⟩] (some ⟨3⟩) (by decide)
  have hn := C8_next_previous [⟨1⟩, ⟨2⟩, ⟨3⟩] none (by decide)
  have hs : ([⟨1⟩, ⟨2⟩, ⟨3⟩] : List TrackR).findIdx?
      (matchesCurrent (some ⟨3⟩)) = some 2 := by decide
  have hnone : ([⟨1⟩, ⟨2⟩, ⟨3⟩] : List TrackR).findIdx?
      (matchesCurrent none) = none := by decide
  obtain ⟨hA, hB⟩ := h3.2.1 2 hs
  obtain ⟨hC, hD⟩ := hn.1 hnone
  exact ⟨by rw [hA]; rfl, by rw [hB]; rfl, by rw [hC]; rfl, by rw [hD]; rfl⟩

theorem getItem_setItem (key val : String) (st : Store) :
    getItem key (setItem key val st) = some val := by
  simp [getItem, setItem]

theorem render_ne_nil (v : JsVal) : render v ≠ [] := by
  cases v with
  | jnull => simp [render]
  | jbool b => cases b <;> simp [render]
  | jnum n =>
    rw [render, intToChars]
    by_cases hn : n < 0
    · simp [hn]
    · rw [if_neg hn, natToChars]
      exact natToCharsAux_ne_nil (Nat.lt_succ_self n.toNat)
  | jstr s => simp [render, renderString]
  | jarr elems => cases elems <;> simp [render]
  | jobj fields => cases fields <;> simp [render]
  | jfile a b c => simp [render]

theorem stringify_ne_empty (v : JsVal) : stringify v ≠ "" := by
  rw [stringify]
  intro h
  have : render v = [] := by
    have := congrArg String.data h
    simpa using this
  exact render_ne_nil v this

theorem parseJson_stringify (v : JsVal) : parseJson (stringify v) = some (scrub v) :=
  parseJson_render v

theorem homeLoad_save (playlist : List JsVal) (st : Store) :
    homeLoadPlaylist (savePlaylistEffect playlist st) =
      .ok (.jarr (scrubList playlist)) := by
  rw [savePlaylistEffect, homeLoadPlaylist, getItem_setItem]
  simp only [if_neg (stringify_ne_empty (JsVal.jarr playlist)), parseJson_stringify, scrub]

/-- C2, amended: saving a playlist to the key `musicPlayerPlaylist` and
loading it back yields the playlist with every track's `file` field
replaced by the empty object (`JSON.stringify` serializes a `File` as
`{}`); the round trip is verbatim exactly when the playlist holds no
`File` values. -/
theorem C2_roundtrip (playlist : List JsVal) (st : Store) :
    homeLoadPlaylist (savePlaylistEffect playlist st) =
      .ok (.jarr (scrubList playlist)) ∧
    (noFileList playlist = true →
      homeLoadPlaylist (savePlaylistEffect playlist st) = .ok (.jarr playlist)) := by
  refine ⟨homeLoad_save playlist st, fun hnf => ?_⟩
  rw [homeLoad_save playlist st, scrubList_eq_self hnf]

/-- C2, witness: a playlist whose track carries no `File` value (its
`file` field is already the empty object) survives the round trip
verbatim. -/
theorem C2_witness :
    noFileList [.jobj [("id", .jnum 1), ("name", .jstr "a"),
      ("url", .jstr "u"), ("file", .jobj [])]] = true ∧
    homeLoadPlaylist (savePlaylistEffect
      [.jobj [("id", .jnum 1), ("name", .jstr "a"),
        ("url", .jstr "u"), ("file", .jobj [])]] emptyStore) =
      .ok (.jarr [.jobj [("id", .jnum 1), ("name", .jstr "a"),
        ("url", .jstr "u"), ("file", .jobj [])]]) := by
  have hnf : noFileList [(.jobj [("id", .jnum 1), ("name", .jstr "a"),
      ("url", .jstr "u"), ("file", .jobj [])] : JsVal)] = true := by
    simp [noFileList, noFile, noFileFields]
  exact ⟨hnf, (C2_roundtrip _ emptyStore).2 hnf⟩

/-- C2, counterexample: a freshly uploaded track carries the `File`
handle in its `file` field; `JSON.stringify` writes it as `{}`, so the
loaded playlist differs from the saved one — the round trip is not
verbatim. -/
theorem C2_counterexample :
    homeLoadPlaylist (savePlaylistEffect
      [.jobj [("id", .jnum 1), ("name", .jstr "song"), ("url", .jstr "data:x"),
        ("file", .jfile "song.mp3" "audio/mpeg" 3)]] emptyStore) ≠
    .ok (.jarr [.jobj [("id", .jnum 1), ("name", .jstr "song"),
      ("url", .jstr "data:x"), ("file", .jfile "song.mp3" "audio/mpeg" 3)]]) := by
  rw [homeLoad_save]
  simp [scrubList, scrub, scrubFields]

theorem noFileFields_append_ts (fs : List (String × JsVal)) (now : Int)
    (h : noFileFields fs = true) :
    noFileFields (fs ++ [("timestamp", .jnum now)]) = true := by
  induction fs with
  | nil => rfl
  | cons f fs ih =>
    obtain ⟨k, v⟩ := f
    rw [noFileFields, Bool.and_eq_true] at h
    rw [List.cons_append, noFileFields, Bool.and_eq_true]
    exact ⟨h.1, ih h.2⟩

theorem noFileFields_overwrite_ts (fs : List (String × JsVal)) (now : Int)
    (h : noFileFields fs = true) :
    noFileFields (fs.map (fun f => if f.1 = "timestamp" then (f.1, .jnum now) else f)) = true := by
  induction fs with
  | nil => rfl
  | cons f fs ih =>
    obtain ⟨k, v⟩ := f
    rw [noFileFields, Bool.and_eq_true] at h
    rw [List.map_cons]
    by_cases hk : k = "timestamp"
    · simp only [hk, if_pos rfl]
      rw [noFileFields, Bool.and_eq_true]
      exact ⟨rfl, ih h.2⟩
    · simp only [if_neg hk]
      rw [noFileFields, Bool.and_eq_true]
      exact ⟨h.1, ih h.2⟩

theorem noFileFields_spread (fs : List (String × JsVal)) (now : Int)
    (h : noFileFields fs = true) :
    noFileFields (spreadTimestamp fs now) = true := by
  rw [spreadTimestamp]
  by_cases hc : fs.any (fun f => f.1 = "timestamp") = true
  · rw [if_pos hc]
    exact noFileFields_overwrite_ts fs now h
  · rw [if_neg hc]
    exact noFileFields_append_ts fs now h

/-- C9: `saveToLocalStorage` stores the object augmented with a numeric
`timestamp` field, so loading the same key returns the saved object plus
that timestamp; when the object had no `timestamp` key the result is
therefore not the object verbatim; and `loadFromLocalStorage` returns
`null` when nothing is stored under the key. -/
theorem C9_save_load (key : String) (fields : List (String × JsVal)) (now : Int)
    (st : Store) (hnf : noFileFields fields = true) :
    loadFromLocalStorage key (saveToLocalStorage key fields now st) =
      .ok (some (.jobj (spreadTimestamp fields now))) ∧
    loadFromLocalStorage key emptyStore = .ok none ∧
    (fields.any (fun f => f.1 = "timestamp") = false →
      loadFromLocalStorage key (saveToLocalStorage key fields now st) ≠
        .ok (some (.jobj fields))) := by
  have hmain : loadFromLocalStorage key (saveToLocalStorage key fields now st) =
      .ok (some (.jobj (spreadTimestamp fields now))) := by
    rw [saveToLocalStorage, loadFromLocalStorage, loadFromLocalStorageBody, getItem_setItem]
    simp only [if_neg (stringify_ne_empty (JsVal.jobj (spreadTimestamp fields now))),
      parseJson_stringify, scrub, scrubFields_eq_self (noFileFields_spread fields now hnf)]
  refine ⟨hmain, rfl, fun hany => ?_⟩
  rw [hmain]
  have hform : spreadTimestamp fields now = fields ++ [("timestamp", .jnum now)] := by
    rw [spreadTimestamp, if_neg (by rw [hany]; exact Bool.false_ne_true)]
  rw [hform]
  intro h
  simp only [Except.ok.injEq, Option.some.injEq, JsVal.jobj.injEq] at h
  have := congrArg List.length h
  simp at this

/-- C9, witness: storing `{volume: 3}` under `"k"` at time `42` and
loading it back yields `{volume: 3, timestamp: 42}`, not the object
verbatim. -/
theorem C9_witness :
    noFileFields [("volume", .jnum 3)] = true ∧
    loadFromLocalStorage "k" (saveToLocalStorage "k" [("volume", .jnum 3)] 42 emptyStore) =
      .ok (some (.jobj [("volume", .jnum 3), ("timestamp", .jnum 42)])) ∧
    loadFromLocalStorage "k" emptyStore = .ok none := by
  have hnf : noFileFields [("volume", (.jnum 3 : JsVal))] = true := by
    simp [noFileFields, noFile]
  have h := C9_save_load "k" [("volume", .jnum 3)] 42 emptyStore hnf
  refine ⟨hnf, ?_, h.2.1⟩
  rw [h.1]
  rfl

/-- C5: along each of the three analyser code paths — the utility
`connectAudioAnalyser`, the `AudioVisualizer` initialization, and the
Home page initialization — every read of frequency data happens with
`fftSize = 256` and `smoothingTimeConstant = 0.8` in effect (the first
path sets both explicitly; the other two set `fftSize` and leave the
smoothing constant at its Web Audio default of `0.8`). -/
theorem C5_analyser_config :
    configuredAtReads createAnalyser connectAudioAnalyserTrace ∧
    configuredAtReads createAnalyser audioVisualizerTrace ∧
    configuredAtReads createAnalyser homeInitTrace := by
  refine ⟨?_, ?_, ?_⟩ <;>
    simp [configuredAtReads, anaStep, createAnalyser,
      connectAudioAnalyserTrace, audioVisualizerTrace, homeInitTrace]

theorem floor_div_sixty (q : ℚ) : ⌊q / 60⌋ = ⌊q⌋ / 60 := by
  rw [Int.floor_eq_iff]
  constructor
  · rw [le_div_iff (by norm_num : (0 : ℚ) < 60)]
    calc ((⌊q⌋ / 60 : ℤ) : ℚ) * 60 = ((⌊q⌋ / 60 * 60 : ℤ) : ℚ) := by push_cast; ring
    _ ≤ ((⌊q⌋ : ℤ) : ℚ) := by
        exact_mod_cast (by omega : ⌊q⌋ / 60 * 60 ≤ ⌊q⌋)
    _ ≤ q := Int.floor_le q
  · rw [div_lt_iff (by norm_num : (0 : ℚ) < 60)]
    calc q < (⌊q⌋ : ℚ) + 1 := Int.lt_floor_add_one q
    _ = ((⌊q⌋ + 1 : ℤ) : ℚ) := by push_cast; ring
    _ ≤ (((⌊q⌋ / 60 + 1) * 60 : ℤ) : ℚ) := by
        exact_mod_cast (by omega : ⌊q⌋ + 1 ≤ (⌊q⌋ / 60 + 1) * 60)
    _ = (((⌊q⌋ / 60 : ℤ) : ℚ) + 1) * 60 := by push_cast; ring

theorem floor_fmod_sixty (q : ℚ) (h : 0 ≤ q) : ⌊jsFmod q 60⌋ = ⌊q⌋ % 60 := by
  rw [jsFmod, jsTrunc, if_pos (by positivity : (0 : ℚ) ≤ q / 60)]
  have hcast : q - 60 * ((⌊q / 60⌋ : ℤ) : ℚ) = q - ((60 * ⌊q / 60⌋ : ℤ) : ℚ) := by
    push_cast; ring
  rw [hcast, Int.floor_sub_int, floor_div_sixty]
  omega

/-- C6, amended: for every finite non-negative number of seconds, all
three `formatTime` implementations return `floor(s/60)`, a colon, and
`floor(s) mod 60` zero-padded to two digits; for `NaN` or missing input
the utility and `MusicPlayer` implementations return `"0:00"`, but the
Home page implementation has no guard and returns `"NaN:NaN"`. -/
theorem C6_formatTime (q : ℚ) (h : 0 ≤ q) :
    formatTime_utils (.fin q) = expectedFormat q ∧
    formatTime_mp (.fin q) = expectedFormat q ∧
    formatTime_home (.fin q) = expectedFormat q ∧
    formatTime_utils .nan = "0:00" ∧ formatTime_utils .undef = "0:00" ∧
    formatTime_mp .nan = "0:00" ∧ formatTime_mp .undef = "0:00" ∧
    formatTime_home .nan = "NaN:NaN" ∧ formatTime_home .undef = "NaN:NaN" := by
  have hbody : jsNumToStr (jsFloorN (jsDivN (.fin q) 60)) ++ ":" ++
      padStart2 (jsNumToStr (jsFloorN (jsModN (.fin q) 60))) = expectedFormat q := by
    rw [jsDivN, jsModN, jsFloorN, jsFloorN, jsNumToStr, jsNumToStr,
      floor_fmod_sixty q h, expectedFormat]
  refine ⟨?_, ?_, hbody, rfl, rfl, rfl, rfl, rfl, rfl⟩
  · rw [formatTime_utils]
    by_cases hq : q = 0
    · subst hq
      rw [if_pos (by rfl)]
      rw [expectedFormat]
      norm_num
      rfl
    · rw [if_neg ?_]
      · exact hbody
      · simp [jsFalsy, jsIsNaN, hq]
  · rw [formatTime_mp, if_neg (by simp [jsIsNaN])]
    exact hbody

/-- C6, witness: `formatTime` of 125 seconds is `"2:05"` in all three
implementations. -/
theorem C6_witness :
    (0 : ℚ) ≤ 125 ∧ formatTime_utils (.fin 125) = "2:05" ∧
    formatTime_home (.fin 125) = "2:05" := by
  have h := C6_formatTime 125 (by norm_num)
  have hexp : expectedFormat 125 = "2:05" := by
    rw [expectedFormat]
    have h1 : ⌊(125 : ℚ) / 60⌋ = 2 := by
      rw [show ((125 : ℚ)) = ((125 : ℤ) : ℚ) by norm_num,
        show ((60 : ℚ)) = ((60 : ℕ) : ℚ) by norm_num,
        Rat.floor_intCast_div_natCast]
      rfl
    have h2 : ⌊(125 : ℚ)⌋ = 125 := by
      norm_num
    rw [h1, h2]
    rfl
  exact ⟨by norm_num, by rw [h.1, hexp], by rw [h.2.2.1, hexp]⟩

/-- C6, counterexample: the Home page `formatTime` has no `NaN` guard:
`Math.floor(NaN/60)` is `NaN`, whose string form is `"NaN"`, so the
function returns `"NaN:NaN"`, not `"0:00"`. -/
theorem C6_counterexample :
    formatTime_home .nan = "NaN:NaN" ∧ formatTime_home .nan ≠ "0:00" :=
  ⟨rfl, by decide⟩

/-- C1, witness for the amended characterization at concrete files: a
small `audio/mpeg` file named `a.mp3` is accepted by the `FileUpload`
component. -/
theorem C1_witness :
    handleFileSelect (some ⟨"a.mp3", "audio/mpeg", 100⟩) =
      SelectResult.accepted ⟨"a.mp3", "audio/mpeg", 100⟩ :=
  (C1_amended ⟨"a.mp3", "audio/mpeg", 100⟩).1.mpr (by decide)

/-- C3, witness for the amended claim at a concrete file: uploading
`song.mp3` (lowercase extension, dotless base) yields a track named
`song`, with the fields `id, name, url, file`. -/
theorem C3_witness :
    ('.' ∉ "song".data) ∧
    jsonKeys (newTrack 5 2 ⟨"song.mp3", "audio/mpeg", 9⟩ "data:y") =
      ["id", "name", "url", "file"] ∧
    getField (newTrack 5 2 ⟨"song.mp3", "audio/mpeg", 9⟩ "data:y") "name" =
      some (.jstr "song") := by
  have h := C3_amended 5 2 ⟨"song.mp3", "audio/mpeg", 9⟩ "data:y"
  refine ⟨by decide, h.1, ?_⟩
  rw [h.2.2.1]
  have hrepl := h.2.2.2.2.2 "song".data (by decide)
  have : ("song.mp3" : String).data = "song".data ++ ".mp3".data := rfl
  rw [this, hrepl]
